import Mathlib

/-!
Shallow embedding of `src/pororo/models/brainbert/PoSLaBERTa.py`.

The file models, faithfully to the Python source:
  * `SegmentBertHubInterface.encode` / `extract_features` / `predict_dependency`,
  * `RobertaSegmentModel.register_classification_head` / `upgrade_state_dict_named`,
together with the small pieces of the fairseq framework that those methods
observably rely on (the `Dictionary` id mapping, Python's `str.split`,
`' '.join`, and the dict/ModuleDict containers, modelled as association lists).

The neural network itself (the transformer forward pass and the dependency
head's argmax outputs) is kept abstract: the embedding is parameterised over
functions standing for `self.model(...)` and for
`classification_heads["dependency_parse_head"](...).argmax(-1)`. Every
structural claim below holds for all instantiations of those parameters.
-/

set_option autoImplicit false
set_option maxRecDepth 100000

/-- A torch tensor, reduced to what the wrapper code observes: its shape and
(for integer token tensors) its flat contents. `data` is the flattened
row-major content; for the abstract float tensors produced by the model only
the shape is meaningful. -/
structure Tensor where
  shape : List Nat
  data : List Nat
deriving DecidableEq

/-- `t.dim()` in torch. -/
def Tensor.dim (t : Tensor) : Nat := t.shape.length

/-- `t.size(-1)` in torch: the size of the last axis (0 for a 0-dim tensor,
which never reaches the size check in the source). -/
def Tensor.sizeLast (t : Tensor) : Nat := t.shape.getLastD 0

/-- `t.unsqueeze(0)` in torch: prepend a batch axis of size one. -/
def Tensor.unsqueeze0 (t : Tensor) : Tensor := ⟨1 :: t.shape, t.data⟩

/-- `t.transpose(0, 1)` in torch, at shape level (used on the inner states in
the `return_all_hiddens` branch of `extract_features`). -/
def Tensor.transpose01 (t : Tensor) : Tensor :=
  match t.shape with
  | a :: b :: rest => ⟨b :: a :: rest, t.data⟩
  | s => ⟨s, t.data⟩

/-- `SegmentBertHubInterface.extract_features` (lines 50-72).
`model` abstracts `self.model(tokens, segments, features_only=True, ...)`,
returning the final-layer features and the list of `inner_states`.
Mirrors the source: a 1-D token tensor is unsqueezed to a batch of one, then
the last-axis size is checked against `self.model.max_positions()`, raising a
`ValueError` whose message interpolates the offending size and the maximum;
otherwise the model is invoked and either the transposed inner states
(`return_all_hiddens`) or the final features are returned. -/
def extract_features (maxPositions : Nat)
    (model : Tensor → Tensor → Tensor × List Tensor)
    (tokens segments : Tensor) (return_all_hiddens : Bool) :
    Except String (Tensor ⊕ List Tensor) :=
  let tokens := if tokens.dim = 1 then tokens.unsqueeze0 else tokens
  if tokens.sizeLast > maxPositions then
    Except.error ("tokens exceeds maximum length: " ++ toString tokens.sizeLast
      ++ " > " ++ toString maxPositions)
  else
    let out := model tokens segments
    if return_all_hiddens then
      Except.ok (Sum.inr (out.2.map Tensor.transpose01))
    else
      Except.ok (Sum.inl out.1)

/-- The fairseq `Dictionary`, reduced to what the wrapper observes: the symbol
list (id `i` is `symbols[i]`), the reserved special indices, the unknown word,
and `nspecial` (the count of special symbols preceding regular entries). -/
structure Dictionary where
  symbols : List String
  padIndex : Nat
  eosIndex : Nat
  unkIndex : Nat
  unkWord : String
  nspecial : Nat
deriving DecidableEq

/-- fairseq `Dictionary.index(sym)`: the id of the first occurrence of `sym`,
falling back to the unknown id when absent (`self.indices.get(sym, unk)`). -/
def Dictionary.index (d : Dictionary) (sym : String) : Nat :=
  match d.symbols.findIdx? (fun s => s == sym) with
  | some i => i
  | none => d.unkIndex

/-- fairseq `Dictionary.string([i])` on a single id: the eos id renders as the
empty string (it is skipped), the unk id renders as the unknown word, other
ids render as the corresponding symbol (out-of-range falls back to the
unknown word, as `Dictionary.__getitem__` does). -/
def Dictionary.string1 (d : Dictionary) (i : Nat) : String :=
  if i = d.eosIndex then ""
  else if i = d.unkIndex then d.unkWord
  else d.symbols.getD i d.unkWord

/-- The whitespace class of Python's `str.split()` (restricted to the ASCII
whitespace characters, which is all this tokenised text can contain). -/
def isPySpace (c : Char) : Bool :=
  c == ' ' || c == '\t' || c == '\n' || c == '\r' || c == '\x0b' || c == '\x0c'

/-- Worker for Python `str.split()`: `acc` holds the reversed characters of
the word currently being read. Words are emitted between whitespace runs and
empty words are never produced. -/
def pySplitAux : List Char → List Char → List (List Char)
  | acc, [] => match acc with
    | [] => []
    | _ => [acc.reverse]
  | acc, c :: cs =>
    if isPySpace c then
      match acc with
      | [] => pySplitAux [] cs
      | _ => acc.reverse :: pySplitAux [] cs
    else pySplitAux (c :: acc) cs

/-- Python `str.split()` (no separator argument): split on whitespace runs,
discarding empty strings. -/
def pyStrSplit (s : String) : List String :=
  (pySplitAux [] s.data).map fun cs => String.mk cs

/-- Python `' '.join(tokens)`. -/
def joinSpace : List String → String
  | [] => ""
  | [t] => t
  | t :: ts => t ++ " " ++ joinSpace ts

/-- Line 96/97 of the source:
`f"<s> {' '.join(tokens)} </s>".split()` — bracket the joined tokens with the
sentinel words and re-split on whitespace. -/
def bracketWords (tokens : List String) : List String :=
  pyStrSplit ("<s> " ++ joinSpace tokens ++ " </s>")

/-- The preprocessing stage of `predict_dependency` (lines 96-111): bracket
and re-split both sequences, record the bracketed length `ori_len`, pad both
to 512 with `"<pad>"` using the token-side pad count, map to ids through the
two dictionaries, and derive the mask as `tokens == 1`. -/
structure DepInputs where
  oriLen : Nat
  ids : List Nat
  segIds : List Nat
  masks : List Bool
deriving DecidableEq

def depPreprocess (srcDict posDict : Dictionary)
    (tokens segments : List String) : DepInputs :=
  let toks0 := bracketWords tokens
  let segs0 := bracketWords segments
  let oriLen := toks0.length
  -- `to_pad = 512 - ori_len`; Python multiplies a list by a negative count to
  -- the empty list, which truncated subtraction models exactly.
  let toPad := 512 - oriLen
  let toks := toks0 ++ List.replicate toPad "<pad>"
  let segs := segs0 ++ List.replicate toPad "<pad>"
  let ids := toks.map srcDict.index
  let segIds := segs.map posDict.index
  -- line 110: `masks = tokens == 1` — the literal id 1, not the pad id.
  let masks := ids.map fun t => t == 1
  ⟨oriLen, ids, segIds, masks⟩

/-- `SegmentBertHubInterface.predict_dependency` (lines 91-135). `depHead`
abstracts `classification_heads["dependency_parse_head"](features, masks)`
followed by the two per-position `argmax(dim=-1)` reads of batch row 0. The
call to `extract_features` is the real one, on the 1-D id tensors built by
the preprocessing stage. The slices `head[0, 1:ori_len-1]` and
`label[0, 1:ori_len-1]` become `drop 1` / `take (ori_len - 1 - 1)`, and each
predicted class `c` is decoded through `string([c + nspecial])` of the
respective label dictionary. -/
def predict_dependency (maxPositions : Nat)
    (model : Tensor → Tensor → Tensor × List Tensor)
    (depHead : Tensor → List Bool → List Nat × List Nat)
    (srcDict posDict label0Dict label1Dict : Dictionary)
    (tokens segments : List String) :
    Except String (List String × List String) :=
  let di := depPreprocess srcDict posDict tokens segments
  match extract_features maxPositions model
      ⟨[di.ids.length], di.ids⟩ ⟨[di.segIds.length], di.segIds⟩ false with
  | Except.error e => Except.error e
  | Except.ok (Sum.inr _) =>
      -- impossible: the call passes return_all_hiddens = False
      Except.error "unreachable: return_all_hiddens is False"
  | Except.ok (Sum.inl features) =>
      let preds := depHead features di.masks
      Except.ok
        (((preds.1.drop 1).take (di.oriLen - 1 - 1)).map fun p =>
           label0Dict.string1 (p + label0Dict.nspecial),
         ((preds.2.drop 1).take (di.oriLen - 1 - 1)).map fun p =>
           label1Dict.string1 (p + label1Dict.nspecial))

/-- fairseq `Dictionary.encode_line(line, append_eos=False,
add_if_not_exist=False)` with the default whitespace tokenizer: split the
line on whitespace and map each word through `index` — unknown words fall
back to the unk id, and the vocabulary never grows. -/
def encode_line (d : Dictionary) (line : String) : List Nat :=
  (pyStrSplit line).map d.index

/-- `SegmentBertHubInterface.encode` (lines 26-48). `tokenize` abstracts
`self.tokenize(sentence, add_special_tokens=...)` (BPE, defined outside this
file's scope). The loop body appends, per auxiliary sentence, first the
separator `" </s>"` (unless `no_separator` suppresses it or special tokens
are off), then `" " ++ tokenize(s, False) ++ " </s>"` when special tokens are
on and nothing otherwise — note that with `add_special_tokens = False` the
auxiliary sentence itself is dropped. -/
def encode (tokenize : String → Bool → String) (d : Dictionary)
    (sentence : String) (addl_sentences : List String)
    (add_special_tokens no_separator : Bool) : List Nat :=
  let bpe := addl_sentences.foldl
    (fun acc s =>
      (acc ++ (if !no_separator && add_special_tokens then " </s>" else "")) ++
      (if add_special_tokens then " " ++ tokenize s false ++ " </s>" else ""))
    (tokenize sentence add_special_tokens)
  encode_line d bpe

/-- A `RobertaClassificationHead`, reduced to what the wrapper observes:
`out_proj.out_features` (the class count), `dense.out_features` (the inner
dimension), and its parameter entries (relative key, value), abstract in the
value type `V`. -/
structure ClassificationHead (V : Type) where
  numClasses : Nat
  innerDim : Nat
  params : List (String × V)
deriving DecidableEq

/-- The slice of `RobertaSegmentModel` the head-management methods touch:
`self.args.encoder_embed_dim` and the `classification_heads` `ModuleDict`,
modelled as an association list in insertion order. -/
structure SegModel (V : Type) where
  embedDim : Nat
  heads : List (String × ClassificationHead V)
deriving DecidableEq

/-- First-match association-list lookup (Python `dict` key access /
membership). -/
def lookupKV {V : Type} : List (String × V) → String → Option V
  | [], _ => none
  | (k, v) :: rest, key => if k = key then some v else lookupKV rest key

/-- Python `dict` assignment: replace the first binding of the key in place,
or append a fresh binding at the end. -/
def setKV {V : Type} : List (String × V) → String → V → List (String × V)
  | [], key, v => [(key, v)]
  | (k, v') :: rest, key, v =>
    if k = key then (key, v) :: rest else (k, v') :: setKV rest key v

/-- Python truthiness of `inner_dim or self.args.encoder_embed_dim`:
`None` and `0` both fall back to the embedding dimension. -/
def pyOrNat (o : Option Nat) (d : Nat) : Nat :=
  match o with
  | none => d
  | some 0 => d
  | some n => n

/-- Python `repr` of the `inner_dim` argument as `print` renders it. -/
def optNatStr (o : Option Nat) : String :=
  match o with
  | none => "None"
  | some n => toString n

/-- The warning printed on line 294-298 when a head name is re-registered
with a different shape. -/
def reRegisterWarning (name : String) (num_classes : Nat)
    (prev_num_classes : Nat) (inner_dim : Option Nat)
    (prev_inner_dim : Nat) : String :=
  "WARNING: re-registering head \"" ++ name ++ "\" with num_classes "
    ++ toString num_classes ++ " (prev: " ++ toString prev_num_classes
    ++ ") and inner_dim " ++ optNatStr inner_dim ++ " (prev: "
    ++ toString prev_inner_dim ++ ")"

/-- Constructing a fresh `RobertaClassificationHead(embed_dim, inner_dim,
num_classes, ...)`: the parameter values are freshly initialised tensors,
abstracted by `init` applied to the three shape arguments. -/
def newClassificationHead {V : Type}
    (init : Nat → Nat → Nat → List (String × V))
    (embedDim innerDim numClasses : Nat) : ClassificationHead V :=
  ⟨numClasses, innerDim, init embedDim innerDim numClasses⟩

/-- `RobertaSegmentModel.register_classification_head` (lines 281-305):
warn when the name is already bound with a different
`(out_proj.out_features, dense.out_features)` shape than the supplied
arguments, then unconditionally bind the name to a freshly constructed head,
with `inner_dim or encoder_embed_dim` as the inner dimension. Returns the
updated model and the warnings printed. -/
def register_classification_head {V : Type}
    (init : Nat → Nat → Nat → List (String × V)) (m : SegModel V)
    (name : String) (num_classes : Nat) (inner_dim : Option Nat) :
    SegModel V × List String :=
  let warns :=
    match lookupKV m.heads name with
    | some prev =>
      if num_classes ≠ prev.numClasses ∨ inner_dim ≠ some prev.innerDim then
        [reRegisterWarning name num_classes prev.numClasses inner_dim
          prev.innerDim]
      else []
    | none => []
  ({ m with
      heads := setKV m.heads name
        (newClassificationHead init m.embedDim
          (pyOrNat inner_dim m.embedDim) num_classes) },
   warns)

/-- `name + "." if name != "" else ""` (line 339). -/
def prefixOf (name : String) : String :=
  if name = "" then "" else name ++ "."

/-- Python `k.startswith(p)`: character-wise prefix test. -/
def pyStartsWith (k p : String) : Bool :=
  p.data.isPrefixOf k.data

/-- Worker for Python `str.split(".")`: splits at every `'.'`, keeping empty
parts (unlike the whitespace split). The result is never empty. -/
def splitDotAux : List Char → List Char → List String
  | acc, [] => [String.mk acc.reverse]
  | acc, c :: cs =>
    if c = '.' then String.mk acc.reverse :: splitDotAux [] cs
    else splitDotAux (c :: acc) cs

/-- `k[len(prefix + "classification_heads."):].split(".")[0]` (line 350):
drop the qualifying prefix (character count) and take the first
dot-separated component. -/
def headNameOf (pfx : String) (k : String) : String :=
  (splitDotAux [] (k.data.drop pfx.data.length)).headD ""

/-- The registration loop of `upgrade_state_dict_named` (lines 346-359):
for every state-dict key under `prefix + "classification_heads."` whose head
name is not already live (the membership test is against the live
`ModuleDict` view, so heads registered earlier in the same loop count),
register a head with the hardcoded `num_classes = 48`, `inner_dim = 768`.
The guard guarantees the inner `register_classification_head` call never
finds a previous head, hence prints no warning. -/
def registerMissingHeads {V : Type}
    (init : Nat → Nat → Nat → List (String × V)) (pfx : String) :
    List (String × V) → SegModel V → SegModel V
  | [], m => m
  | (k, _) :: rest, m =>
    if pyStartsWith k (pfx ++ "classification_heads.") then
      let head_name := headNameOf (pfx ++ "classification_heads.") k
      if (lookupKV m.heads head_name).isSome then
        registerMissingHeads init pfx rest m
      else
        registerMissingHeads init pfx rest
          (register_classification_head init m head_name 48 (some 768)).1
    else registerMissingHeads init pfx rest m

/-- `self.classification_heads.state_dict()`: every head's parameter entries,
keyed `headname.relativekey`, in registry order. -/
def headsStateDict {V : Type}
    (hs : List (String × ClassificationHead V)) : List (String × V) :=
  (hs.map fun nh => nh.2.params.map fun kv => (nh.1 ++ "." ++ kv.1, kv.2)).flatten

/-- The copy-back loop of `upgrade_state_dict_named` (lines 366-371): for
every entry of the live heads' state dict whose qualified key is missing from
the (mutating) state dict, print `"Overwriting <key>"` and insert the current
value. Modelled as structural recursion threading the dict and the print
log, exactly as the Python loop mutates them. -/
def copyHeads {V : Type} (pfx : String) :
    List (String × V) → List (String × V) → List String →
    List (String × V) × List String
  | [], sd, prints => (sd, prints)
  | (k, v) :: rest, sd, prints =>
    let key := pfx ++ "classification_heads." ++ k
    if (lookupKV sd key).isSome then copyHeads pfx rest sd prints
    else copyHeads pfx rest (sd ++ [(key, v)])
      (prints ++ ["Overwriting " ++ key])

/-- The result of `upgrade_state_dict_named`: the model (with any newly
registered heads), the reconciled state dict, and the lines printed. -/
structure UpgradeResult (V : Type) where
  model : SegModel V
  stateDict : List (String × V)
  prints : List String
deriving DecidableEq

/-- `RobertaSegmentModel.upgrade_state_dict_named` (lines 336-371). The
inherited framework hook (`super().upgrade_state_dict_named`) is the identity
on this architecture's state dicts and is modelled as such. `keys_to_delete`
is initialised empty and never extended (lines 344, 361-362), so the deletion
loop removes nothing and is omitted as a no-op. -/
def upgrade_state_dict_named {V : Type}
    (init : Nat → Nat → Nat → List (String × V)) (m : SegModel V)
    (state_dict : List (String × V)) (name : String) : UpgradeResult V :=
  let pfx := prefixOf name
  let m2 := registerMissingHeads init pfx state_dict m
  let (sd, prints) := copyHeads pfx (headsStateDict m2.heads) state_dict []
  ⟨m2, sd, prints⟩

/-! ### Generic lemmas about the association-list model of Python dicts -/

theorem lookupKV_append {V : Type} (l1 l2 : List (String × V)) (k : String) :
    lookupKV (l1 ++ l2) k =
      match lookupKV l1 k with
      | some v => some v
      | none => lookupKV l2 k := by
  induction l1 with
  | nil => rfl
  | cons p rest ih =>
    obtain ⟨k', v'⟩ := p
    by_cases h : k' = k <;> simp [lookupKV, h, ih]

theorem lookupKV_append_some {V : Type} {l1 : List (String × V)} {k : String}
    {v : V} (l2 : List (String × V)) (h : lookupKV l1 k = some v) :
    lookupKV (l1 ++ l2) k = some v := by
  rw [lookupKV_append, h]

theorem lookupKV_append_none {V : Type} {l1 : List (String × V)} {k : String}
    (l2 : List (String × V)) (h : lookupKV l1 k = none) :
    lookupKV (l1 ++ l2) k = lookupKV l2 k := by
  rw [lookupKV_append, h]

theorem lookupKV_setKV_self {V : Type} (l : List (String × V)) (k : String)
    (v : V) : lookupKV (setKV l k v) k = some v := by
  induction l with
  | nil => simp [setKV, lookupKV]
  | cons p rest ih =>
    obtain ⟨k', v'⟩ := p
    by_cases h : k' = k <;> simp [setKV, lookupKV, h, ih]

theorem lookupKV_setKV_ne {V : Type} (l : List (String × V)) {k k' : String}
    (v : V) (h : k' ≠ k) : lookupKV (setKV l k v) k' = lookupKV l k' := by
  induction l with
  | nil => simp [setKV, lookupKV, Ne.symm h]
  | cons p rest ih =>
    obtain ⟨k0, v0⟩ := p
    by_cases h0 : k0 = k
    · subst h0
      simp only [setKV, if_pos rfl, lookupKV]
      rw [if_neg (Ne.symm h), if_neg (Ne.symm h)]
    · simp only [setKV, if_neg h0]
      by_cases h1 : k0 = k' <;> simp [lookupKV, h1, ih]

theorem keys_setKV_of_lookup {V : Type} (l : List (String × V)) {k : String}
    {v0 : V} (v : V) (h : lookupKV l k = some v0) :
    (setKV l k v).map Prod.fst = l.map Prod.fst := by
  induction l with
  | nil => simp [lookupKV] at h
  | cons p rest ih =>
    obtain ⟨k0, w⟩ := p
    by_cases h0 : k0 = k
    · subst h0; simp [setKV]
    · simp only [lookupKV, if_neg h0] at h
      simp [setKV, if_neg h0, ih h]

/-! ### Lemmas about `extract_features` -/

/-- Prepending the batch axis never changes the size of the last axis when it
happens (it only happens on 1-D tensors). -/
theorem sizeLast_promote (t : Tensor) :
    (if t.dim = 1 then t.unsqueeze0 else t).sizeLast = t.sizeLast := by
  obtain ⟨shape, data⟩ := t
  match shape with
  | [] => rfl
  | [n] => rfl
  | a :: b :: rest => rfl

/-- On a 1-D token tensor whose length fits, `extract_features` (with
`return_all_hiddens = False`) succeeds with the features of the model applied
to the batch-of-one promotion; the segments tensor is passed through
untouched. -/
theorem extract_features_ok (maxPositions : Nat)
    (model : Tensor → Tensor → Tensor × List Tensor) (n : Nat)
    (d : List Nat) (segments : Tensor) (h : n ≤ maxPositions) :
    extract_features maxPositions model ⟨[n], d⟩ segments false =
      Except.ok (Sum.inl (model ⟨[1, n], d⟩ segments).1) := by
  simp only [extract_features, Tensor.dim, Tensor.unsqueeze0, Tensor.sizeLast,
    List.length_cons, List.length_nil, if_pos rfl]
  rw [if_neg (by simp [List.getLastD]; omega)]
  simp

/-- Claim C2: for every token tensor whose last-axis size exceeds the
configured maximum positions, `extract_features` fails with a `ValueError`
message interpolating the offending size and the maximum; for every
token/segment pair of equal last-axis size within the maximum, no error is
raised. -/
theorem extract_features_length_check (maxPositions : Nat)
    (model : Tensor → Tensor → Tensor × List Tensor)
    (tokens segments : Tensor) (return_all_hiddens : Bool) :
    (tokens.sizeLast > maxPositions →
      extract_features maxPositions model tokens segments return_all_hiddens =
        Except.error ("tokens exceeds maximum length: "
          ++ toString tokens.sizeLast ++ " > " ++ toString maxPositions)) ∧
    (tokens.sizeLast = segments.sizeLast → tokens.sizeLast ≤ maxPositions →
      ∃ v, extract_features maxPositions model tokens segments
        return_all_hiddens = Except.ok v) := by
  constructor
  · intro h
    simp only [extract_features]
    rw [if_pos (by rw [sizeLast_promote]; exact h), sizeLast_promote]
  · intro _ h
    simp only [extract_features]
    rw [if_neg (by rw [sizeLast_promote]; omega)]
    cases return_all_hiddens <;> simp

/-- Witness for C2: a concrete over-long tensor produces exactly the
formatted error, and a concrete fitting pair of equal lengths succeeds. -/
theorem extract_features_length_check_witness :
    ((Tensor.mk [5] [9, 9, 9, 9, 9]).sizeLast > 3 ∧
      extract_features 3 (fun t _ => (t, [])) ⟨[5], [9, 9, 9, 9, 9]⟩
          ⟨[5], [0, 0, 0, 0, 0]⟩ false =
        Except.error ("tokens exceeds maximum length: "
          ++ toString (Tensor.mk [5] [9, 9, 9, 9, 9]).sizeLast
          ++ " > " ++ toString 3)) ∧
    ((Tensor.mk [2] [7, 8]).sizeLast = (Tensor.mk [2] [4, 4]).sizeLast ∧
      (Tensor.mk [2] [7, 8]).sizeLast ≤ 3 ∧
      ∃ v, extract_features 3 (fun t _ => (t, [])) ⟨[2], [7, 8]⟩
        ⟨[2], [4, 4]⟩ false = Except.ok v) :=
  ⟨⟨by decide,
    (extract_features_length_check 3 (fun t _ => (t, [])) ⟨[5], [9, 9, 9, 9, 9]⟩
      ⟨[5], [0, 0, 0, 0, 0]⟩ false).1 (by decide)⟩,
   ⟨by decide, by decide,
    (extract_features_length_check 3 (fun t _ => (t, [])) ⟨[2], [7, 8]⟩
      ⟨[2], [4, 4]⟩ false).2 (by decide) (by decide)⟩⟩

/-- Claim C9: a 1-D token tensor is promoted to a batch of one (shape
`(1, n)`) before the length check and the model call: the call on `⟨[n], d⟩`
is indistinguishable from the call on the already-promoted `⟨[1, n], d⟩`, the
model is invoked on the 2-dimensional promotion with the segments tensor
passed through unchanged (whatever its dimension), and the length check reads
`n` either way. -/
theorem extract_features_promotes_batch (maxPositions : Nat)
    (model : Tensor → Tensor → Tensor × List Tensor) (n : Nat)
    (d : List Nat) (segments : Tensor) :
    (extract_features maxPositions model ⟨[n], d⟩ segments false =
       extract_features maxPositions model ⟨[1, n], d⟩ segments false) ∧
    (Tensor.mk [1, n] d).dim = 2 ∧
    (n ≤ maxPositions →
      extract_features maxPositions model ⟨[n], d⟩ segments false =
        Except.ok (Sum.inl (model ⟨[1, n], d⟩ segments).1)) ∧
    (n > maxPositions →
      extract_features maxPositions model ⟨[n], d⟩ segments false =
        Except.error ("tokens exceeds maximum length: " ++ toString n
          ++ " > " ++ toString maxPositions)) := by
  refine ⟨rfl, rfl, fun h => extract_features_ok _ _ _ _ _ h, fun h => ?_⟩
  simp only [extract_features, Tensor.dim, Tensor.unsqueeze0, Tensor.sizeLast,
    List.length_cons, List.length_nil, if_pos rfl]
  rw [if_pos (by simp [List.getLastD]; omega)]
  simp [List.getLastD]

/-- Witness for C9: both length regimes at concrete inputs, with a 1-D
segments tensor passed through unpromoted. -/
theorem extract_features_promotes_batch_witness :
    (extract_features 4 (fun t s => (⟨t.shape ++ s.shape, t.data⟩, []))
        ⟨[2], [5, 6]⟩ ⟨[2], [7, 8]⟩ false =
      extract_features 4 (fun t s => (⟨t.shape ++ s.shape, t.data⟩, []))
        ⟨[1, 2], [5, 6]⟩ ⟨[2], [7, 8]⟩ false) ∧
    ((2 : Nat) ≤ 4 ∧
      extract_features 4 (fun t s => (⟨t.shape ++ s.shape, t.data⟩, []))
          ⟨[2], [5, 6]⟩ ⟨[2], [7, 8]⟩ false =
        Except.ok (Sum.inl ⟨[1, 2, 2], [5, 6]⟩)) ∧
    ((9 : Nat) > 4 ∧
      extract_features 4 (fun t s => (⟨t.shape ++ s.shape, t.data⟩, []))
          ⟨[9], List.replicate 9 0⟩ ⟨[9], List.replicate 9 0⟩ false =
        Except.error ("tokens exceeds maximum length: " ++ toString 9
          ++ " > " ++ toString 4)) :=
  ⟨(extract_features_promotes_batch 4 _ 2 [5, 6] ⟨[2], [7, 8]⟩).1,
   ⟨by decide,
    (extract_features_promotes_batch 4 _ 2 [5, 6] ⟨[2], [7, 8]⟩).2.2.1
      (by decide)⟩,
   ⟨by decide,
    (extract_features_promotes_batch 4 _ 9 (List.replicate 9 0)
      ⟨[9], List.replicate 9 0⟩).2.2.2 (by decide)⟩⟩

/-! ### Lemmas about the Python split/join modelling -/

/-- A caller-supplied whitespace token: nonempty and free of whitespace
characters, as "already-whitespace-tokenized" input guarantees. -/
def goodWord (t : String) : Prop :=
  t.data ≠ [] ∧ ∀ c ∈ t.data, isPySpace c = false

instance (t : String) : Decidable (goodWord t) := by
  unfold goodWord; infer_instance

theorem pySplitAux_no_space (w : List Char) (acc cs : List Char)
    (hw : ∀ c ∈ w, isPySpace c = false) :
    pySplitAux acc (w ++ cs) = pySplitAux (w.reverse ++ acc) cs := by
  induction w generalizing acc with
  | nil => simp
  | cons a w ih =>
    have ha : isPySpace a = false := hw a (List.mem_cons_self a w)
    simp only [List.cons_append, pySplitAux, ha, Bool.false_eq_true, if_false,
      List.reverse_cons, List.append_assoc, List.singleton_append]
    exact ih (a :: acc) fun c hc => hw c (List.mem_cons_of_mem a hc)

theorem pySplitAux_space_ne (acc cs : List Char) (h : acc ≠ []) :
    pySplitAux acc (' ' :: cs) = acc.reverse :: pySplitAux [] cs := by
  match acc with
  | [] => exact absurd rfl h
  | a :: acc => simp [pySplitAux, isPySpace]

theorem pySplitAux_space_nil (cs : List Char) :
    pySplitAux [] (' ' :: cs) = pySplitAux [] cs := by
  simp [pySplitAux, isPySpace]

theorem pySplitAux_end_sentinel :
    pySplitAux [] ("</s>" : String).data = [("</s>" : String).data] := by
  decide

/-- Splitting `' '.join(ts)` followed by a space and the closing sentinel
yields exactly the tokens and the sentinel, for whitespace-free tokens. -/
theorem pySplit_words (ts : List String) (h : ∀ t ∈ ts, goodWord t) :
    pySplitAux [] ((joinSpace ts).data ++ (' ' :: ("</s>" : String).data)) =
      ts.map String.data ++ [("</s>" : String).data] := by
  induction ts with
  | nil => decide
  | cons t ts ih =>
    obtain ⟨hne, hnsp⟩ := h t (List.mem_cons_self t ts)
    cases ts with
    | nil =>
      show pySplitAux [] (t.data ++ (' ' :: ("</s>" : String).data)) = _
      rw [pySplitAux_no_space t.data _ _ hnsp,
        pySplitAux_space_ne _ _ (by simpa using hne)]
      rw [List.append_nil, List.reverse_reverse, pySplitAux_end_sentinel]
      rfl
    | cons t' ts' =>
      have hdata : (joinSpace (t :: t' :: ts')).data =
          t.data ++ ' ' :: (joinSpace (t' :: ts')).data := by
        show (t ++ " " ++ joinSpace (t' :: ts')).data = _
        show t.data ++ [' '] ++ (joinSpace (t' :: ts')).data = _
        simp
      rw [hdata, List.append_assoc, List.cons_append,
        pySplitAux_no_space t.data _ _ hnsp,
        pySplitAux_space_ne _ _ (by simpa using hne)]
      rw [List.append_nil, List.reverse_reverse,
        ih fun u hu => h u (List.mem_cons_of_mem t hu)]
      simp

/-- For already-whitespace-tokenized input,
`f"<s> {' '.join(tokens)} </s>".split()` is the bracketed token list. -/
theorem bracketWords_eq (ts : List String) (h : ∀ t ∈ ts, goodWord t) :
    bracketWords ts = "<s>" :: ts ++ ["</s>"] := by
  have hdata : ("<s> " ++ joinSpace ts ++ " </s>").data =
      ['<', 's', '>'] ++ (' ' :: ((joinSpace ts).data ++
        (' ' :: ("</s>" : String).data))) := by
    show ("<s> " : String).data ++ (joinSpace ts).data ++
        (" </s>" : String).data = _
    have h1 : ("<s> " : String).data = ['<', 's', '>', ' '] := by decide
    have h2 : (" </s>" : String).data = ' ' :: ("</s>" : String).data := by
      decide
    rw [h1, h2]
    simp
  unfold bracketWords pyStrSplit
  rw [hdata, pySplitAux_no_space ['<', 's', '>'] _ _ (by decide),
    pySplitAux_space_ne _ _ (by decide), pySplit_words ts h]
  rw [List.append_nil]
  simp only [List.map_cons, List.map_append, List.map_map]
  have hid : ((fun cs => String.mk cs) ∘ String.data) = (id : String → String) :=
    funext fun u => rfl
  rw [hid, List.map_id]
  rfl

/-! ### Lemmas about `predict_dependency` -/

theorem depPreprocess_oriLen (srcDict posDict : Dictionary)
    (tokens segments : List String) :
    (depPreprocess srcDict posDict tokens segments).oriLen =
      (bracketWords tokens).length := rfl

theorem depPreprocess_masks_eq (srcDict posDict : Dictionary)
    (tokens segments : List String) :
    (depPreprocess srcDict posDict tokens segments).masks =
      (depPreprocess srcDict posDict tokens segments).ids.map
        (fun i => i == 1) := rfl

/-- Unfolding `predict_dependency` when the (padded) id sequence fits in the
maximum positions: the call succeeds and returns the two decoded slices. -/
theorem predict_dependency_unfold (maxPositions : Nat)
    (model : Tensor → Tensor → Tensor × List Tensor)
    (depHead : Tensor → List Bool → List Nat × List Nat)
    (srcDict posDict label0Dict label1Dict : Dictionary)
    (tokens segments : List String)
    (h : (depPreprocess srcDict posDict tokens segments).ids.length
      ≤ maxPositions) :
    predict_dependency maxPositions model depHead srcDict posDict label0Dict
        label1Dict tokens segments =
      Except.ok
        ((((depHead
              ((model
                  ⟨[1, (depPreprocess srcDict posDict tokens segments).ids.length],
                    (depPreprocess srcDict posDict tokens segments).ids⟩
                  ⟨[(depPreprocess srcDict posDict tokens segments).segIds.length],
                    (depPreprocess srcDict posDict tokens segments).segIds⟩).1)
              (depPreprocess srcDict posDict tokens segments).masks).1.drop 1).take
            ((depPreprocess srcDict posDict tokens segments).oriLen - 1 - 1)).map
          (fun p => label0Dict.string1 (p + label0Dict.nspecial)),
         (((depHead
              ((model
                  ⟨[1, (depPreprocess srcDict posDict tokens segments).ids.length],
                    (depPreprocess srcDict posDict tokens segments).ids⟩
                  ⟨[(depPreprocess srcDict posDict tokens segments).segIds.length],
                    (depPreprocess srcDict posDict tokens segments).segIds⟩).1)
              (depPreprocess srcDict posDict tokens segments).masks).2.drop 1).take
            ((depPreprocess srcDict posDict tokens segments).oriLen - 1 - 1)).map
          (fun p => label1Dict.string1 (p + label1Dict.nspecial))) := by
  have he := extract_features_ok maxPositions model
    (depPreprocess srcDict posDict tokens segments).ids.length
    (depPreprocess srcDict posDict tokens segments).ids
    ⟨[(depPreprocess srcDict posDict tokens segments).segIds.length],
      (depPreprocess srcDict posDict tokens segments).segIds⟩ h
  simp only [predict_dependency]
  rw [he]

/-! ### Concrete instantiations used by witnesses and counterexamples -/

/-- A small fairseq-style source dictionary (specials at ids 0-3, pad at 1). -/
def exDictSrc : Dictionary :=
  ⟨["<s>", "<pad>", "</s>", "<unk>", "a", "b", "c"], 1, 2, 3, "<unk>", 4⟩

/-- A small segment/POS dictionary. -/
def exDictPos : Dictionary :=
  ⟨["<s>", "<pad>", "</s>", "<unk>", "N", "V"], 1, 2, 3, "<unk>", 4⟩

/-- A small governor-label dictionary. -/
def exDictL0 : Dictionary :=
  ⟨["<s>", "<pad>", "</s>", "<unk>", "g0", "g1", "g2"], 1, 2, 3, "<unk>", 4⟩

/-- A small relation-label dictionary. -/
def exDictL1 : Dictionary :=
  ⟨["<s>", "<pad>", "</s>", "<unk>", "r0", "r1", "r2"], 1, 2, 3, "<unk>", 4⟩

/-- A dictionary whose pad symbol does NOT sit at id 1 (pad at 0, with
`"</s>"` occupying id 1). -/
def cexDictSrc : Dictionary :=
  ⟨["<pad>", "</s>", "<s>", "<unk>", "a"], 0, 1, 3, "<unk>", 4⟩

/-- A concrete stand-in for the transformer forward pass. -/
def exModel : Tensor → Tensor → Tensor × List Tensor := fun t _ => (t, [])

/-- A concrete stand-in for the dependency head + argmax: 512 per-position
class predictions per output (class 0 for governors, class 1 for relations). -/
def exDepHead : Tensor → List Bool → List Nat × List Nat :=
  fun _ _ => (List.replicate 512 0, List.replicate 512 1)

/-! ### Claims C1, C4, C7 -/

/-- Claim C1 (counterexample): on the whitespace-tokenized input
`["a", "b", "c"]` of original (caller-supplied) length `L = 3`,
`predict_dependency` returns two label sequences of length 3 each — not
`L - 2 = 1` as the claim states. -/
theorem predict_dependency_length_counterexample :
    (predict_dependency 512 exModel exDepHead exDictSrc exDictPos exDictL0
        exDictL1 ["a", "b", "c"] ["N", "V", "N"]).map
      (fun p => (p.1.length, p.2.length)) = Except.ok (3, 3) ∧
    ((3 : Nat), (3 : Nat)) ≠ ((3 : Nat) - 2, (3 : Nat) - 2) :=
  ⟨by rfl, by decide⟩

/-- Claim C1 (amended): for whitespace-tokenized input of caller-supplied
length `L` (with `L + 2 ≤ 512` so the bracketed sequence fits the fixed pad
width, and the model's maximum positions at least 512), `predict_dependency`
returns two parallel label sequences each of length `L` — the sentinel first
and last positions of the *bracketed* sequence (of length `L + 2`) are
stripped, so the output aligns with the caller's `L` tokens. -/
theorem predict_dependency_output_length (maxPositions : Nat)
    (model : Tensor → Tensor → Tensor × List Tensor)
    (depHead : Tensor → List Bool → List Nat × List Nat)
    (srcDict posDict label0Dict label1Dict : Dictionary)
    (tokens segments : List String)
    (hwf : ∀ t ∈ tokens, goodWord t)
    (hlen : tokens.length + 2 ≤ 512)
    (hmax : 512 ≤ maxPositions)
    (hhd : ∀ f m, (depHead f m).1.length = 512 ∧ (depHead f m).2.length = 512) :
    ∃ G R, predict_dependency maxPositions model depHead srcDict posDict
        label0Dict label1Dict tokens segments = Except.ok (G, R) ∧
      G.length = tokens.length ∧ R.length = tokens.length := by
  have hbr : (bracketWords tokens).length = tokens.length + 2 := by
    rw [bracketWords_eq tokens hwf]; simp
  have hids : (depPreprocess srcDict posDict tokens segments).ids.length
      = 512 := by
    show ((bracketWords tokens ++ List.replicate
        (512 - (bracketWords tokens).length) "<pad>").map srcDict.index).length
      = 512
    rw [List.length_map, List.length_append, List.length_replicate]
    omega
  have hfit : (depPreprocess srcDict posDict tokens segments).ids.length
      ≤ maxPositions := by omega
  refine ⟨_, _, predict_dependency_unfold maxPositions model depHead srcDict
    posDict label0Dict label1Dict tokens segments hfit, ?_, ?_⟩
  · rw [List.length_map, List.length_take, List.length_drop,
      (hhd _ _).1, depPreprocess_oriLen, hbr]
    omega
  · rw [List.length_map, List.length_take, List.length_drop,
      (hhd _ _).2, depPreprocess_oriLen, hbr]
    omega

/-- Witness for the amended C1: three tokens in, two sequences of three
labels out. -/
theorem predict_dependency_output_length_witness :
    (∀ t ∈ (["a", "b", "c"] : List String), goodWord t) ∧
    (∃ G R, predict_dependency 512 exModel exDepHead exDictSrc exDictPos
        exDictL0 exDictL1 ["a", "b", "c"] ["N", "V", "N"] =
          Except.ok (G, R) ∧
      G.length = (["a", "b", "c"] : List String).length ∧
      R.length = (["a", "b", "c"] : List String).length) :=
  ⟨by decide,
   predict_dependency_output_length 512 exModel exDepHead exDictSrc exDictPos
     exDictL0 exDictL1 ["a", "b", "c"] ["N", "V", "N"] (by decide) (by decide)
     (by decide) (fun f m => by constructor <;> rfl)⟩

/-- Claim C4: when the padded input fits the maximum positions, the governor
output of `predict_dependency` is the sliced governor-argmax sequence decoded
through `label0_dictionary.string([c + label0.nspecial])` and the relation
output likewise through `label1_dictionary`; moreover, whenever
`c + nspecial` is neither the eos nor the unk id, that decode is exactly the
dictionary entry at id `c + nspecial` — the 0-based class index shifted past
the special symbols. -/
theorem predict_dependency_offset_decode (maxPositions : Nat)
    (model : Tensor → Tensor → Tensor × List Tensor)
    (depHead : Tensor → List Bool → List Nat × List Nat)
    (srcDict posDict label0Dict label1Dict : Dictionary)
    (tokens segments : List String) (c : Nat)
    (hfit : (depPreprocess srcDict posDict tokens segments).ids.length
      ≤ maxPositions)
    (h0e : c + label0Dict.nspecial ≠ label0Dict.eosIndex)
    (h0u : c + label0Dict.nspecial ≠ label0Dict.unkIndex)
    (h1e : c + label1Dict.nspecial ≠ label1Dict.eosIndex)
    (h1u : c + label1Dict.nspecial ≠ label1Dict.unkIndex) :
    predict_dependency maxPositions model depHead srcDict posDict label0Dict
        label1Dict tokens segments =
      Except.ok
        ((((depHead
              ((model
                  ⟨[1, (depPreprocess srcDict posDict tokens segments).ids.length],
                    (depPreprocess srcDict posDict tokens segments).ids⟩
                  ⟨[(depPreprocess srcDict posDict tokens segments).segIds.length],
                    (depPreprocess srcDict posDict tokens segments).segIds⟩).1)
              (depPreprocess srcDict posDict tokens segments).masks).1.drop 1).take
            ((depPreprocess srcDict posDict tokens segments).oriLen - 1 - 1)).map
          (fun p => label0Dict.string1 (p + label0Dict.nspecial)),
         (((depHead
              ((model
                  ⟨[1, (depPreprocess srcDict posDict tokens segments).ids.length],
                    (depPreprocess srcDict posDict tokens segments).ids⟩
                  ⟨[(depPreprocess srcDict posDict tokens segments).segIds.length],
                    (depPreprocess srcDict posDict tokens segments).segIds⟩).1)
              (depPreprocess srcDict posDict tokens segments).masks).2.drop 1).take
            ((depPreprocess srcDict posDict tokens segments).oriLen - 1 - 1)).map
          (fun p => label1Dict.string1 (p + label1Dict.nspecial))) ∧
    label0Dict.string1 (c + label0Dict.nspecial) =
      label0Dict.symbols.getD (c + label0Dict.nspecial) label0Dict.unkWord ∧
    label1Dict.string1 (c + label1Dict.nspecial) =
      label1Dict.symbols.getD (c + label1Dict.nspecial) label1Dict.unkWord := by
  refine ⟨predict_dependency_unfold maxPositions model depHead srcDict posDict
    label0Dict label1Dict tokens segments hfit, ?_, ?_⟩
  · rw [Dictionary.string1, if_neg h0e, if_neg h0u]
  · rw [Dictionary.string1, if_neg h1e, if_neg h1u]

/-- Witness for C4: with constant class predictions 0 (governor) and 1
(relation), the outputs decode through ids `0 + 4 = 4` and `1 + 4 = 5` of the
two label dictionaries — `"g0"` and `"r1"`. -/
theorem predict_dependency_offset_decode_witness :
    ((depPreprocess exDictSrc exDictPos ["a", "b"] ["N", "V"]).ids.length
      ≤ 512) ∧
    predict_dependency 512 exModel exDepHead exDictSrc exDictPos exDictL0
        exDictL1 ["a", "b"] ["N", "V"] =
      Except.ok (["g0", "g0"], ["r1", "r1"]) ∧
    exDictL0.string1 (0 + exDictL0.nspecial) =
      exDictL0.symbols.getD (0 + exDictL0.nspecial) exDictL0.unkWord :=
  ⟨by decide,
   ((predict_dependency_offset_decode 512 exModel exDepHead exDictSrc exDictPos
       exDictL0 exDictL1 ["a", "b"] ["N", "V"] 0 (by decide) (by decide)
       (by decide) (by decide) (by decide)).1).trans (by rfl),
   (predict_dependency_offset_decode 512 exModel exDepHead exDictSrc exDictPos
       exDictL0 exDictL1 ["a", "b"] ["N", "V"] 0 (by decide) (by decide)
       (by decide) (by decide) (by decide)).2.1⟩

/-- Claim C7 (counterexample): with a source dictionary whose pad symbol sits
at id 0 while `"</s>"` occupies id 1, the mask marks the sentinel `"</s>"`
position (id 1, not the pad id) and fails to mark an actual pad position
(id 0 = the pad id): the mask tracks the literal id 1, not the pad id. -/
theorem depPreprocess_mask_counterexample :
    (depPreprocess cexDictSrc exDictPos ["a"] ["N"]).masks.getD 2 false = true ∧
    (depPreprocess cexDictSrc exDictPos ["a"] ["N"]).ids.getD 2 0
      ≠ cexDictSrc.padIndex ∧
    (depPreprocess cexDictSrc exDictPos ["a"] ["N"]).masks.getD 3 false
      = false ∧
    (depPreprocess cexDictSrc exDictPos ["a"] ["N"]).ids.getD 3 0
      = cexDictSrc.padIndex :=
  ⟨by rfl, by decide, by rfl, by rfl⟩

/-- Claim C7 (amended): the mask passed to the dependency head marks exactly
the positions whose encoded id equals the literal 1; whenever the source
dictionary assigns the pad symbol id 1 (the fairseq default layout), this is
exactly "id equals the pad id". -/
theorem depPreprocess_mask_hardcoded_one (srcDict posDict : Dictionary)
    (tokens segments : List String) (hpad : srcDict.padIndex = 1) :
    (depPreprocess srcDict posDict tokens segments).masks =
      (depPreprocess srcDict posDict tokens segments).ids.map
        (fun i => i == srcDict.padIndex) := by
  rw [hpad]; rfl

/-- Witness for the amended C7: with the default-layout dictionary the mask
equals the pad-id comparison map. -/
theorem depPreprocess_mask_hardcoded_one_witness :
    exDictSrc.padIndex = 1 ∧
    (depPreprocess exDictSrc exDictPos ["a"] ["N"]).masks =
      (depPreprocess exDictSrc exDictPos ["a"] ["N"]).ids.map
        (fun i => i == exDictSrc.padIndex) :=
  ⟨rfl, depPreprocess_mask_hardcoded_one exDictSrc exDictPos ["a"] ["N"] rfl⟩

/-! ### Lemmas about the classification-head registry -/

/-- Claim C5: re-registering an existing head name warns exactly when the
supplied `num_classes`/`inner_dim` differ from the stored head's shape
(`out_proj.out_features`, `dense.out_features`) — one warning when they
differ, none when they agree — and in both cases the name is rebound to a
freshly constructed head (with `inner_dim or encoder_embed_dim` as inner
dimension) while the registry's key sequence is unchanged, so the name still
maps to exactly one head. -/
theorem register_classification_head_warn_replace {V : Type}
    (init : Nat → Nat → Nat → List (String × V)) (m : SegModel V)
    (name : String) (num_classes : Nat) (inner_dim : Option Nat)
    (prev : ClassificationHead V)
    (hprev : lookupKV m.heads name = some prev) :
    ((register_classification_head init m name num_classes inner_dim).2 =
      if num_classes = prev.numClasses ∧ inner_dim = some prev.innerDim then []
      else [reRegisterWarning name num_classes prev.numClasses inner_dim
        prev.innerDim]) ∧
    lookupKV (register_classification_head init m name num_classes
        inner_dim).1.heads name =
      some (newClassificationHead init m.embedDim
        (pyOrNat inner_dim m.embedDim) num_classes) ∧
    (register_classification_head init m name num_classes
        inner_dim).1.heads.map Prod.fst = m.heads.map Prod.fst := by
  refine ⟨?_, lookupKV_setKV_self _ _ _, keys_setKV_of_lookup m.heads _ hprev⟩
  simp only [register_classification_head, hprev]
  by_cases h : num_classes = prev.numClasses ∧ inner_dim = some prev.innerDim
  · rw [if_pos h, if_neg (not_or.mpr ⟨not_not_intro h.1, not_not_intro h.2⟩)]
  · rw [if_neg h, if_pos (not_and_or.mp h)]

/-- A fresh-parameter stand-in for head construction. -/
def exInit : Nat → Nat → Nat → List (String × Nat) :=
  fun _ _ _ => [("dense.weight", 7), ("out_proj.bias", 8)]

/-- A model with one registered head of shape `(3, 5)`. -/
def exSegModel : SegModel Nat :=
  ⟨768, [("depparse", ⟨3, 5, [("dense.weight", 9)]⟩)]⟩

/-- Witness for C5: re-registering `"depparse"` with its stored shape
`(3, 5)` warns nothing, rebinds the name to the fresh head, and keeps the
key sequence. -/
theorem register_classification_head_warn_replace_witness :
    lookupKV exSegModel.heads "depparse" =
      some ⟨3, 5, [("dense.weight", 9)]⟩ ∧
    (register_classification_head exInit exSegModel "depparse" 3
      (some 5)).2 = [] ∧
    lookupKV (register_classification_head exInit exSegModel "depparse" 3
        (some 5)).1.heads "depparse" =
      some (newClassificationHead exInit exSegModel.embedDim
        (pyOrNat (some 5) exSegModel.embedDim) 3) ∧
    (register_classification_head exInit exSegModel "depparse" 3
        (some 5)).1.heads.map Prod.fst = exSegModel.heads.map Prod.fst :=
  ⟨by decide,
   ((register_classification_head_warn_replace exInit exSegModel "depparse" 3
     (some 5) ⟨3, 5, [("dense.weight", 9)]⟩ (by decide)).1).trans (by decide),
   (register_classification_head_warn_replace exInit exSegModel "depparse" 3
     (some 5) ⟨3, 5, [("dense.weight", 9)]⟩ (by decide)).2.1,
   (register_classification_head_warn_replace exInit exSegModel "depparse" 3
     (some 5) ⟨3, 5, [("dense.weight", 9)]⟩ (by decide)).2.2⟩

theorem registerMissing_preserves {V : Type}
    (init : Nat → Nat → Nat → List (String × V)) (pfx : String)
    (sd : List (String × V)) (m : SegModel V) (hn : String)
    (h : ClassificationHead V) (hl : lookupKV m.heads hn = some h) :
    lookupKV (registerMissingHeads init pfx sd m).heads hn = some h := by
  induction sd generalizing m with
  | nil => exact hl
  | cons kv rest ih =>
    obtain ⟨k, v⟩ := kv
    cases hs : pyStartsWith k (pfx ++ "classification_heads.") with
    | false => simp only [registerMissingHeads, hs, Bool.false_eq_true,
        if_false]; exact ih m hl
    | true =>
      simp only [registerMissingHeads, hs, if_true]
      cases ho : lookupKV m.heads
          (headNameOf (pfx ++ "classification_heads.") k) with
      | some h' => simp only [ho, Option.isSome_some, if_true]; exact ih m hl
      | none =>
        simp only [ho, Option.isSome_none, Bool.false_eq_true, if_false]
        refine ih _ ?_
        have hne : hn ≠ headNameOf (pfx ++ "classification_heads.") k := by
          intro he; rw [he, ho] at hl; exact Option.noConfusion hl
        exact (lookupKV_setKV_ne m.heads _ hne).trans hl

theorem registerMissing_registers {V : Type}
    (init : Nat → Nat → Nat → List (String × V)) (pfx : String)
    (sd : List (String × V)) (k : String) (v : V) (hn : String) :
    ∀ m : SegModel V, (k, v) ∈ sd →
      pyStartsWith k (pfx ++ "classification_heads.") = true →
      headNameOf (pfx ++ "classification_heads.") k = hn →
      (lookupKV m.heads hn = none ∨
        ∃ h, lookupKV m.heads hn = some h ∧
          h.numClasses = 48 ∧ h.innerDim = 768) →
      ∃ h, lookupKV (registerMissingHeads init pfx sd m).heads hn = some h ∧
        h.numClasses = 48 ∧ h.innerDim = 768 := by
  induction sd with
  | nil => intro m hmem; exact absurd hmem (List.not_mem_nil _)
  | cons kv rest ih =>
    obtain ⟨k', v'⟩ := kv
    intro m hmem hsw hname hdisj
    rcases List.mem_cons.mp hmem with heq | htail
    · obtain ⟨hk, hv⟩ := Prod.mk.injEq .. ▸ heq
      subst hk
      simp only [registerMissingHeads, hsw, if_true, hname]
      cases ho : lookupKV m.heads hn with
      | some h' =>
        simp only [ho, Option.isSome_some, if_true]
        rcases hdisj with hnone | ⟨h, hl, h48, h768⟩
        · rw [ho] at hnone; exact Option.noConfusion hnone
        · rw [ho] at hl
          exact ⟨h', registerMissing_preserves init pfx rest m hn h' ho,
            (Option.some.inj hl).symm ▸ h48, (Option.some.inj hl).symm ▸ h768⟩
      | none =>
        simp only [ho, Option.isSome_none, Bool.false_eq_true, if_false]
        refine ⟨newClassificationHead init m.embedDim
          (pyOrNat (some 768) m.embedDim) 48, ?_, rfl, rfl⟩
        exact registerMissing_preserves init pfx rest _ hn _
          (lookupKV_setKV_self m.heads hn _)
    · cases hs' : pyStartsWith k' (pfx ++ "classification_heads.") with
      | false =>
        simp only [registerMissingHeads, hs', Bool.false_eq_true, if_false]
        exact ih m htail hsw hname hdisj
      | true =>
        simp only [registerMissingHeads, hs', if_true]
        cases ho : lookupKV m.heads
            (headNameOf (pfx ++ "classification_heads.") k') with
        | some h' =>
          simp only [ho, Option.isSome_some, if_true]
          exact ih m htail hsw hname hdisj
        | none =>
          simp only [ho, Option.isSome_none, Bool.false_eq_true, if_false]
          refine ih _ htail hsw hname ?_
          by_cases he : headNameOf (pfx ++ "classification_heads.") k' = hn
          · subst he
            exact Or.inr ⟨_, lookupKV_setKV_self m.heads _ _, rfl, rfl⟩
          · have hpres := lookupKV_setKV_ne m.heads
              (newClassificationHead init m.embedDim
                (pyOrNat (some 768) m.embedDim) 48) (fun hh => he hh.symm)
            rcases hdisj with hnone | ⟨h, hl, h48, h768⟩
            · exact Or.inl (hpres.trans hnone)
            · exact Or.inr ⟨h, hpres.trans hl, h48, h768⟩

/-- Claim C3: every head name appearing under the `classification_heads.`
state-dict namespace (with the method's `name` argument as outer qualifier)
that is absent from the live registry ends up registered with exactly the
hardcoded shape `num_classes = 48`, `inner_dim = 768`, irrespective of the
saved head's true shape (which the method never inspects). -/
theorem upgrade_registers_default_shape_head {V : Type}
    (init : Nat → Nat → Nat → List (String × V)) (m : SegModel V)
    (state_dict : List (String × V)) (name k : String) (v : V)
    (hk : (k, v) ∈ state_dict)
    (hsw : pyStartsWith k (prefixOf name ++ "classification_heads.") = true)
    (habs : lookupKV m.heads
      (headNameOf (prefixOf name ++ "classification_heads.") k) = none) :
    ∃ h, lookupKV (upgrade_state_dict_named init m state_dict name).model.heads
        (headNameOf (prefixOf name ++ "classification_heads.") k) = some h ∧
      h.numClasses = 48 ∧ h.innerDim = 768 := by
  have hmodel : (upgrade_state_dict_named init m state_dict name).model =
      registerMissingHeads init (prefixOf name) state_dict m := rfl
  rw [hmodel]
  exact registerMissing_registers init (prefixOf name) state_dict k v _ m hk
    hsw rfl (Or.inl habs)

/-- A model with an empty head registry. -/
def exEmptyModel : SegModel Nat := ⟨768, []⟩

/-- A state dict carrying one saved classification-head parameter. -/
def exStateDict : List (String × Nat) :=
  [("classification_heads.depparse.dense.weight", 5)]

/-- Witness for C3: loading a state dict mentioning head `"depparse"` into a
model without it registers a `(48, 768)` head. -/
theorem upgrade_registers_default_shape_head_witness :
    (("classification_heads.depparse.dense.weight", (5 : Nat)) ∈ exStateDict) ∧
    (pyStartsWith "classification_heads.depparse.dense.weight"
      (prefixOf "" ++ "classification_heads.") = true) ∧
    (lookupKV exEmptyModel.heads "depparse" = none) ∧
    ((lookupKV (upgrade_state_dict_named exInit exEmptyModel exStateDict
        "").model.heads "depparse").map
      (fun h => (h.numClasses, h.innerDim)) = some (48, 768)) := by
  refine ⟨by decide, by decide, by decide, ?_⟩
  obtain ⟨h, hl, h48, h768⟩ := upgrade_registers_default_shape_head exInit
    exEmptyModel exStateDict ""
    "classification_heads.depparse.dense.weight" 5 (by decide) (by decide)
    (by decide)
  rw [show ("depparse" : String) =
    headNameOf (prefixOf "" ++ "classification_heads.")
      "classification_heads.depparse.dense.weight" from by decide, hl]
  simp [h48, h768]

/-! ### Lemmas about the copy-back pass of `upgrade_state_dict_named` -/

theorem copyHeads_mono_prints {V : Type} (pfx : String)
    (cur : List (String × V)) (sd : List (String × V)) (prints : List String)
    (p : String) (hp : p ∈ prints) : p ∈ (copyHeads pfx cur sd prints).2 := by
  induction cur generalizing sd prints with
  | nil => exact hp
  | cons kv rest ih =>
    obtain ⟨k, v⟩ := kv
    simp only [copyHeads]
    cases ho : lookupKV sd (pfx ++ "classification_heads." ++ k) with
    | some w => simp only [ho, Option.isSome_some, if_true]; exact ih sd prints hp
    | none =>
      simp only [ho, Option.isSome_none, Bool.false_eq_true, if_false]
      exact ih _ _ (List.mem_append_left _ hp)

theorem copyHeads_preserves_some {V : Type} (pfx : String)
    (cur : List (String × V)) (sd : List (String × V)) (prints : List String)
    (k0 : String) (v0 : V) (hl : lookupKV sd k0 = some v0)
    (hnot : k0 ∉ cur.map fun kv => pfx ++ "classification_heads." ++ kv.1) :
    lookupKV (copyHeads pfx cur sd prints).1 k0 = some v0 := by
  induction cur generalizing sd prints with
  | nil => exact hl
  | cons kv rest ih =>
    obtain ⟨k, v⟩ := kv
    simp only [List.map_cons, List.mem_cons, not_or] at hnot
    simp only [copyHeads]
    cases ho : lookupKV sd (pfx ++ "classification_heads." ++ k) with
    | some w => simp only [ho, Option.isSome_some, if_true]
                exact ih sd prints hl hnot.2
    | none =>
      simp only [ho, Option.isSome_none, Bool.false_eq_true, if_false]
      exact ih _ _ (lookupKV_append_some _ hl) hnot.2

theorem copyHeads_inserts {V : Type} (pfx : String) (cur : List (String × V))
    (sd : List (String × V)) (prints : List String) (k : String) (v : V)
    (hnd : (cur.map fun kv => pfx ++ "classification_heads." ++ kv.1).Nodup)
    (hk : (k, v) ∈ cur)
    (habs : lookupKV sd (pfx ++ "classification_heads." ++ k) = none) :
    lookupKV (copyHeads pfx cur sd prints).1
        (pfx ++ "classification_heads." ++ k) = some v ∧
    ("Overwriting " ++ (pfx ++ "classification_heads." ++ k))
      ∈ (copyHeads pfx cur sd prints).2 := by
  induction cur generalizing sd prints with
  | nil => exact absurd hk (List.not_mem_nil _)
  | cons kv rest ih =>
    obtain ⟨k', v'⟩ := kv
    simp only [List.map_cons, List.nodup_cons] at hnd
    rcases List.mem_cons.mp hk with heq | htail
    · obtain ⟨hk', hv'⟩ := Prod.mk.injEq .. ▸ heq
      subst hk'; subst hv'
      simp only [copyHeads, habs, Option.isSome_none, Bool.false_eq_true,
        if_false]
      constructor
      · refine copyHeads_preserves_some pfx rest _ _ _ v ?_ hnd.1
        rw [lookupKV_append_none _ habs]
        simp [lookupKV]
      · exact copyHeads_mono_prints pfx rest _ _ _
          (List.mem_append_right _ (List.mem_singleton.mpr rfl))
    · have hfk : pfx ++ "classification_heads." ++ k ∈
          rest.map fun kv => pfx ++ "classification_heads." ++ kv.1 :=
        List.mem_map.mpr ⟨(k, v), htail, rfl⟩
      have hne : pfx ++ "classification_heads." ++ k ≠
          pfx ++ "classification_heads." ++ k' :=
        fun he => hnd.1 (he ▸ hfk)
      simp only [copyHeads]
      cases ho : lookupKV sd (pfx ++ "classification_heads." ++ k') with
      | some w => simp only [ho, Option.isSome_some, if_true]
                  exact ih sd prints hnd.2 htail habs
      | none =>
        simp only [ho, Option.isSome_none, Bool.false_eq_true, if_false]
        refine ih _ _ hnd.2 htail ?_
        rw [lookupKV_append_none _ habs]
        simp only [lookupKV]
        rw [if_neg (fun hx => hne (Eq.symm hx))]

/-- Claim C8: after reconciliation, every parameter entry `(k, v)` of the
live classification heads whose qualified key is absent from the incoming
state dict is present in the returned state dict with the head's current
value, and the overwrite is logged as `"Overwriting <qualified key>"`.
The no-duplicates hypothesis reflects that `state_dict()` of the head
registry is a Python dict (unique keys). -/
theorem upgrade_copies_missing_head_params {V : Type}
    (init : Nat → Nat → Nat → List (String × V)) (m : SegModel V)
    (state_dict : List (String × V)) (name k : String) (v : V)
    (hnd : ((headsStateDict (upgrade_state_dict_named init m state_dict
        name).model.heads).map
      (fun kv => prefixOf name ++ "classification_heads." ++ kv.1)).Nodup)
    (hk : (k, v) ∈ headsStateDict (upgrade_state_dict_named init m state_dict
      name).model.heads)
    (habs : lookupKV state_dict
      (prefixOf name ++ "classification_heads." ++ k) = none) :
    lookupKV (upgrade_state_dict_named init m state_dict name).stateDict
        (prefixOf name ++ "classification_heads." ++ k) = some v ∧
    ("Overwriting " ++ (prefixOf name ++ "classification_heads." ++ k))
      ∈ (upgrade_state_dict_named init m state_dict name).prints := by
  exact copyHeads_inserts (prefixOf name)
    (headsStateDict (registerMissingHeads init (prefixOf name) state_dict
      m).heads) state_dict [] k v hnd hk habs

/-- A model with one live head carrying one parameter entry. -/
def exHeadModel : SegModel Nat :=
  ⟨768, [("hA", ⟨3, 5, [("dense.weight", 9)]⟩)]⟩

/-- A state dict that does not mention the live head. -/
def exOtherStateDict : List (String × Nat) := [("other", 1)]

/-- Witness for C8: the live head's parameter is copied into the state dict
under its qualified key and the overwrite is printed. -/
theorem upgrade_copies_missing_head_params_witness :
    (((headsStateDict (upgrade_state_dict_named exInit exHeadModel
        exOtherStateDict "decoder").model.heads).map
      (fun kv => prefixOf "decoder" ++ "classification_heads." ++ kv.1)).Nodup) ∧
    (("hA.dense.weight", (9 : Nat)) ∈ headsStateDict (upgrade_state_dict_named
      exInit exHeadModel exOtherStateDict "decoder").model.heads) ∧
    (lookupKV exOtherStateDict (prefixOf "decoder" ++ "classification_heads."
      ++ "hA.dense.weight") = none) ∧
    lookupKV (upgrade_state_dict_named exInit exHeadModel exOtherStateDict
        "decoder").stateDict
      (prefixOf "decoder" ++ "classification_heads." ++ "hA.dense.weight")
      = some 9 ∧
    ("Overwriting " ++ (prefixOf "decoder" ++ "classification_heads."
        ++ "hA.dense.weight"))
      ∈ (upgrade_state_dict_named exInit exHeadModel exOtherStateDict
        "decoder").prints := by
  refine ⟨by decide, by decide, by decide, ?_, ?_⟩
  · exact (upgrade_copies_missing_head_params exInit exHeadModel
      exOtherStateDict "decoder" "hA.dense.weight" 9 (by decide) (by decide)
      (by decide)).1
  · exact (upgrade_copies_missing_head_params exInit exHeadModel
      exOtherStateDict "decoder" "hA.dense.weight" 9 (by decide) (by decide)
      (by decide)).2

theorem lookupKV_append_none_left {V : Type} {l1 l2 : List (String × V)}
    {k : String} (h : lookupKV (l1 ++ l2) k = none) :
    lookupKV l1 k = none := by
  cases hc : lookupKV l1 k with
  | none => rfl
  | some v => rw [lookupKV_append, hc] at h; exact Option.noConfusion h

/-- The copy-back pass only appends entries whose keys were absent. -/
theorem copyHeads_appends {V : Type} (pfx : String)
    (cur : List (String × V)) :
    ∀ (sd : List (String × V)) (prints : List String),
      ∃ adds, (copyHeads pfx cur sd prints).1 = sd ++ adds ∧
        ∀ kv ∈ adds, lookupKV sd kv.1 = none := by
  induction cur with
  | nil =>
    intro sd prints
    exact ⟨[], by simp [copyHeads], by simp⟩
  | cons kv rest ih =>
    obtain ⟨k, v⟩ := kv
    intro sd prints
    simp only [copyHeads]
    cases ho : lookupKV sd (pfx ++ "classification_heads." ++ k) with
    | some w =>
      simp only [ho, Option.isSome_some, if_true]
      exact ih sd prints
    | none =>
      simp only [ho, Option.isSome_none, Bool.false_eq_true, if_false]
      obtain ⟨adds, he, hnone⟩ := ih
        (sd ++ [(pfx ++ "classification_heads." ++ k, v)])
        (prints ++ ["Overwriting " ++ (pfx ++ "classification_heads." ++ k)])
      refine ⟨(pfx ++ "classification_heads." ++ k, v) :: adds, ?_, ?_⟩
      · rw [he, List.append_assoc]; rfl
      · intro kv hkv
        rcases List.mem_cons.mp hkv with heq | htail
        · rw [heq]; exact ho
        · exact lookupKV_append_none_left (hnone kv htail)

/-- Claim C10: `upgrade_state_dict_named` never deletes or modifies an
existing entry — the incoming state dict is a prefix of the result, every
appended entry's key was absent before, and lookups of pre-existing keys are
unchanged (the `keys_to_delete` list is built empty and deletes nothing). -/
theorem upgrade_state_dict_frame {V : Type}
    (init : Nat → Nat → Nat → List (String × V)) (m : SegModel V)
    (state_dict : List (String × V)) (name : String) :
    ((upgrade_state_dict_named init m state_dict name).stateDict.take
      state_dict.length = state_dict) ∧
    (∀ kv ∈ (upgrade_state_dict_named init m state_dict name).stateDict.drop
      state_dict.length, lookupKV state_dict kv.1 = none) ∧
    (∀ k0 v0, lookupKV state_dict k0 = some v0 →
      lookupKV (upgrade_state_dict_named init m state_dict name).stateDict k0
        = some v0) := by
  obtain ⟨adds, he, hnone⟩ := copyHeads_appends (prefixOf name)
    (headsStateDict (registerMissingHeads init (prefixOf name) state_dict
      m).heads) state_dict []
  have hsd : (upgrade_state_dict_named init m state_dict name).stateDict =
      state_dict ++ adds := he
  rw [hsd]
  refine ⟨List.take_left _ _, ?_, ?_⟩
  · intro kv hkv
    rw [List.drop_left] at hkv
    exact hnone kv hkv
  · intro k0 v0 h
    exact lookupKV_append_some _ h

/-- Witness for C10: a pre-existing entry survives the call unchanged while
the head parameters are appended after it. -/
theorem upgrade_state_dict_frame_witness :
    ((upgrade_state_dict_named exInit exHeadModel exOtherStateDict
      "decoder").stateDict.take exOtherStateDict.length = exOtherStateDict) ∧
    (lookupKV exOtherStateDict "other" = some 1 ∧
      lookupKV (upgrade_state_dict_named exInit exHeadModel exOtherStateDict
        "decoder").stateDict "other" = some 1) :=
  ⟨(upgrade_state_dict_frame exInit exHeadModel exOtherStateDict "decoder").1,
   by decide,
   (upgrade_state_dict_frame exInit exHeadModel exOtherStateDict
     "decoder").2.2 "other" 1 (by decide)⟩

/-! ### Claim C6: `encode` -/

/-- Concatenation of a list of strings (used to state the closed form of the
`encode` loop). -/
def concatAll : List String → String
  | [] => ""
  | s :: rest => s ++ concatAll rest

theorem foldl_append_concatAll (A B : String → String) (l : List String) :
    ∀ a : String,
      l.foldl (fun acc s => (acc ++ A s) ++ B s) a =
        a ++ concatAll (l.map fun s => A s ++ B s) := by
  induction l with
  | nil => intro a; simp [concatAll]
  | cons s rest ih =>
    intro a
    simp only [List.foldl_cons, List.map_cons, concatAll]
    rw [ih]
    simp [String.append_assoc]

theorem encode_foldl (tokenize : String → Bool → String)
    (ast nosep : Bool) (l : List String) (a : String) :
    l.foldl
      (fun acc s =>
        (acc ++ (if !nosep && ast then " </s>" else "")) ++
        (if ast then " " ++ tokenize s false ++ " </s>" else "")) a =
      a ++ concatAll (l.map fun s =>
        (if !nosep && ast then " </s>" else "") ++
        (if ast then " " ++ tokenize s false ++ " </s>" else "")) :=
  foldl_append_concatAll
    (fun _ => if !nosep && ast then " </s>" else "")
    (fun s => if ast then " " ++ tokenize s false ++ " </s>" else "") l a

/-- Claim C6: with special tokens on (the default), `encode` builds the
byte-pair string consisting of the primary sentence's tokenization followed,
for each auxiliary sentence in order, by the separator `" </s>"` (omitted
when `no_separator` is set) and then `" " ++ tokenize(s, False) ++ " </s>"` —
so the result contains the primary tokenization followed by every auxiliary
tokenization with separators between consecutive sentences unless
suppressed — and maps that whole string to ids via
`encode_line(append_eos=False, add_if_not_exist=False)`, which never grows
the vocabulary (unknown words become the unk id). -/
theorem encode_builds_delimited_string (tokenize : String → Bool → String)
    (d : Dictionary) (sentence : String) (addl_sentences : List String)
    (no_separator : Bool) (hne : addl_sentences ≠ []) :
    encode tokenize d sentence addl_sentences true no_separator =
      encode_line d (tokenize sentence true ++
        concatAll (addl_sentences.map fun s =>
          (if no_separator then "" else " </s>") ++
          (" " ++ tokenize s false ++ " </s>"))) := by
  show encode_line d
      (addl_sentences.foldl
        (fun acc s =>
          (acc ++ (if !no_separator && true then " </s>" else "")) ++
          (if true then " " ++ tokenize s false ++ " </s>" else ""))
        (tokenize sentence true)) = _
  rw [encode_foldl tokenize true no_separator addl_sentences
    (tokenize sentence true)]
  cases no_separator <;> simp

/-- Witness for C6: one auxiliary sentence with the identity tokenizer — the
encoded ids are those of `"a </s> b </s>"`. -/
theorem encode_builds_delimited_string_witness :
    ((["b"] : List String) ≠ []) ∧
    encode (fun s _ => s) exDictSrc "a" ["b"] true false =
      encode_line exDictSrc "a </s> b </s>" ∧
    encode (fun s _ => s) exDictSrc "a" ["b"] true false = [4, 2, 5, 2] :=
  ⟨by decide,
   (encode_builds_delimited_string (fun s _ => s) exDictSrc "a" ["b"] false
     (by decide)).trans (by rfl),
   by decide⟩
